import Mathlib

/-!
Verification of the giraphql auth and smart-subscriptions plugins.

The smart-subscriptions part embeds
`packages/plugin-smart-subscriptions/src/manager/base.ts` directly.
The auth-plugin part follows the type declarations in
`packages/plugin-auth/src/types.ts` (`PermissionMatcher`,
`PermissionGrantMap`, `AuthRequestData`, `PermissionCheck`); the runtime
functions operating on those types (matcher evaluation, grant-map merge,
the per-request check cache and the field-resolution wrapper) are not part
of the sources, so they are modelled from the specification, as marked on
each definition.
-/

namespace GiraphQL

/-- Modelled from the spec: `PermissionGrantMap` (`types.ts` declares it as a
string-keyed object of booleans); represented as an association list from
permission name to boolean, later entries being the ones added last. -/
abbrev GrantMap : Type := List (String × Bool)

/-- Modelled from the spec: `lookup(grants, name)`; `none` means the map has
no opinion on the name. -/
def lookupGrant (g : GrantMap) (name : String) : Option Bool :=
  (g.find? (fun p => p.1 == name)).map Prod.snd

/-- Whether the grant map has an entry for `name` at all. -/
def hasKey (g : GrantMap) (name : String) : Bool :=
  (g.find? (fun p => p.1 == name)).isSome

/-- Modelled from the spec: evaluating a plain permission name resolves by
direct lookup in the grant map; an absent key is treated as `false`
(fail-closed). -/
def hasGrant (g : GrantMap) (name : String) : Bool :=
  (lookupGrant g name).getD false

/-- Modelled from the spec: `merge(parentGrants, newGrants)` returns a new
map where entries in `newGrants` take precedence over `parentGrants`,
preserving all other parent entries (the object-spread semantics of
building a fresh map from both). Neither argument is modified. -/
def mergeGrants (parentGrants newGrants : GrantMap) : GrantMap :=
  parentGrants.filter (fun p => !(hasKey newGrants p.1)) ++ newGrants

mutual

/-- `PermissionMatcher` from `types.ts`: a tagged union of `{any: entries}`
or `{all: entries}` (mutually exclusive), each with an optional `sequential`
flag (absent is modelled as `false`). -/
inductive PermissionMatcher : Type where
  | any : List MatcherEntry → Bool → PermissionMatcher
  | all : List MatcherEntry → Bool → PermissionMatcher

/-- An entry of a matcher: a permission name or a nested matcher
(`(string | PermissionMatcher)[]` in `types.ts`). -/
inductive MatcherEntry : Type where
  | name : String → MatcherEntry
  | nested : PermissionMatcher → MatcherEntry

end

mutual

/-- Modelled from the spec: evaluate one matcher entry against a grant map;
a plain name is a direct fail-closed lookup, a nested matcher is evaluated
recursively. -/
def evalEntry (g : GrantMap) : MatcherEntry → Bool
  | .name n => hasGrant g n
  | .nested m => evalMatcher g m

/-- Modelled from the spec: `evaluate(matcher, grantMap)`; `{all: ...}` is a
conjunction and `{any: ...}` a disjunction of the entries. -/
def evalMatcher (g : GrantMap) : PermissionMatcher → Bool
  | .any es seq => evalAny g seq es
  | .all es seq => evalAll g seq es

/-- Modelled from the spec: disjunction over the entries of an `any`
matcher. Sequential mode short-circuits on the first `true`; non-sequential
mode evaluates every entry before combining. -/
def evalAny (g : GrantMap) (seq : Bool) : List MatcherEntry → Bool
  | [] => false
  | e :: rest =>
    if seq then
      if evalEntry g e then true else evalAny g seq rest
    else
      evalEntry g e || evalAny g seq rest

/-- Modelled from the spec: conjunction over the entries of an `all`
matcher. Sequential mode short-circuits on the first `false`;
non-sequential mode evaluates every entry before combining. -/
def evalAll (g : GrantMap) (seq : Bool) : List MatcherEntry → Bool
  | [] => true
  | e :: rest =>
    if seq then
      if evalEntry g e then evalAll g seq rest else false
    else
      evalEntry g e && evalAll g seq rest

end

/-- Modelled from the spec: the list of direct entries of an `all` matcher
that evaluation actually visits, in order. In sequential mode evaluation
stops after the first entry that evaluates to `false`; in non-sequential
mode every entry is visited. -/
def allTried (g : GrantMap) (seq : Bool) : List MatcherEntry → List MatcherEntry
  | [] => []
  | e :: rest =>
    if seq then
      e :: (if evalEntry g e then allTried g seq rest else [])
    else
      e :: allTried g seq rest

/-- What a `FieldPermissionCheck` function may return (`types.ts`):
`boolean | string | string[] | PermissionMatcher`. -/
inductive CheckResult : Type where
  | bool : Bool → CheckResult
  | name : String → CheckResult
  | names : List String → CheckResult
  | matcher : PermissionMatcher → CheckResult

/-- `PermissionCheck` from `types.ts`: a permission name, a list of names,
a matcher, or a check function of (parent, args, context). -/
inductive PermissionCheckOpt (P A C : Type) : Type where
  | name : String → PermissionCheckOpt P A C
  | names : List String → PermissionCheckOpt P A C
  | matcher : PermissionMatcher → PermissionCheckOpt P A C
  | fn : (P → A → C → CheckResult) → PermissionCheckOpt P A C

/-- Modelled from the spec: reduce a check function's return value to a
boolean against the grant map; a list of names is sugar for `{all: names}`. -/
def checkResultToBool (g : GrantMap) : CheckResult → Bool
  | .bool b => b
  | .name n => hasGrant g n
  | .names l => evalAll g false (l.map MatcherEntry.name)
  | .matcher m => evalMatcher g m

/-- Modelled from the spec: resolve a field's `permissionCheck` option to a
single boolean outcome via the matcher evaluator. -/
def evalPermissionCheck (g : GrantMap) (check : PermissionCheckOpt P A C)
    (parent : P) (args : A) (ctx : C) : Bool :=
  match check with
  | .name n => hasGrant g n
  | .names l => evalAll g false (l.map MatcherEntry.name)
  | .matcher m => evalMatcher g m
  | .fn f => checkResultToBool g (f parent args ctx)

/-- A field definition as the resolution wrapper sees it: its
`permissionCheck` option and its user resolver. -/
structure FieldDef (P A C R : Type) : Type where
  permissionCheck : PermissionCheckOpt P A C
  resolve : P → A → C → R

/-- Modelled from the spec: a field's result is either its resolved value or
a field-local authorization failure. Denial always produces the same
`AuthorizationError`, carrying no information about which check failed. -/
inductive FieldResult (R : Type) : Type where
  | ok : R → FieldResult R
  | authError : FieldResult R
deriving DecidableEq

/-- Modelled from the spec: the field-resolution wrapper. It evaluates the
field's permission check; if denied, resolution is skipped entirely and the
result is an authorization failure; if allowed, the user resolver runs. The
second component counts how many times the user resolver was invoked. -/
def resolveField (g : GrantMap) (f : FieldDef P A C R) (parent : P) (args : A)
    (ctx : C) : FieldResult R × Nat :=
  if evalPermissionCheck g f.permissionCheck parent args ctx then
    (.ok (f.resolve parent args ctx), 1)
  else
    (.authError, 0)

/-- Modelled from the spec: sibling fields of one parent resolve
independently, each producing its own result at its own position. -/
def resolveFields (g : GrantMap) (fs : List (FieldDef P A C R)) (parent : P)
    (args : A) (ctx : C) : List (FieldResult R × Nat) :=
  fs.map (fun f => resolveField g f parent args ctx)

/-- Modelled from the spec: the per-request auth check cache,
`getOrCompute(request, checkFn, keyObject, compute)`. Check functions and
parent objects are identified by reference identity, represented as numeric
ids. `entries` stores the (possibly still in-flight) result under the key
`(checkId, objectId)`; `execLog` records every execution of an underlying
check, in order. -/
structure AuthCheckCache (V : Type) : Type where
  entries : List ((Nat × Nat) × V)
  execLog : List (Nat × Nat)

/-- Modelled from the spec: look up `(checkId, objectId)`; on a hit return
the stored (possibly pending) result without executing anything; on a miss
execute the check, store its result immediately (before it settles, so that
later lookups share the in-flight computation) and log the execution. -/
def getOrCompute (s : AuthCheckCache V) (checkId objId : Nat)
    (compute : Unit → V) : V × AuthCheckCache V :=
  match s.entries.find? (fun e => e.1 == (checkId, objId)) with
  | some e => (e.2, s)
  | none =>
    let v := compute ()
    (v, ⟨s.entries ++ [((checkId, objId), v)], s.execLog ++ [(checkId, objId)]⟩)

/-- How many times the underlying check for key `k` has executed. -/
def execCount (s : AuthCheckCache V) (k : Nat × Nat) : Nat :=
  s.execLog.countP (fun x => x == k)

/-- `AuthRequestData` from `types.ts`: per-request state holding
`preResolveAuthCheckCache`, a map keyed by the `preResolveCheck` function
itself (identified by a numeric id) storing its possibly-pending result.
`execLog` additionally records every execution of an underlying check. -/
structure AuthRequestData (V : Type) : Type where
  preResolveAuthCheckCache : List (Nat × V)
  execLog : List Nat

/-- A fresh `AuthRequestData`, created at request start. -/
def freshRequestData : AuthRequestData V := ⟨[], []⟩

/-- Modelled from the spec: run a type's `preResolveCheck` through the
per-request cache. The cache is keyed by the check function alone (the
`parentId` a field resolution happens under does not enter the key, since
pre-resolve checks only receive the context), so after the first invocation
every lookup is a cache hit returning the first invocation's result. -/
def runPreResolveCheck (d : AuthRequestData V) (checkId parentId : Nat)
    (check : Unit → V) : V × AuthRequestData V :=
  match d.preResolveAuthCheckCache.find? (fun e => e.1 == checkId) with
  | some e => (e.2, d)
  | none =>
    let v := check ()
    (v, ⟨d.preResolveAuthCheckCache ++ [(checkId, v)], d.execLog ++ [checkId]⟩)

/-- Run a sequence of pre-resolve check invocations (check id, parent id,
check function) against the request data, in order. -/
def runPreResolveChecks (d : AuthRequestData V) :
    List (Nat × Nat × (Unit → V)) → AuthRequestData V
  | [] => d
  | (c, p, f) :: rest => runPreResolveChecks (runPreResolveCheck d c p f).2 rest

/-- `BaseSubscriptionManager` from
`packages/plugin-smart-subscriptions/src/manager/base.ts`: the ordered
`registrations` ledger, together with `registerCalls`, the trace of every
invocation of the manager's `register` (the external subscribe primitive),
in order. -/
structure SubState (α : Type) : Type where
  registrations : List α
  registerCalls : List α

/-- A manager with an empty ledger, as constructed. -/
def initialSubState : SubState α := ⟨[], []⟩

/-- `addRegistration(options)` from `base.ts`: push `options` onto the
`registrations` ledger, then invoke `this.manager.register(options)`. -/
def addRegistration (s : SubState α) (options : α) : SubState α :=
  ⟨s.registrations ++ [options], s.registerCalls ++ [options]⟩

/-- `reRegister()` from `base.ts`: invoke `this.manager.register(options)`
for every ledger entry, in order, leaving the ledger itself untouched. -/
def reRegister (s : SubState α) : SubState α :=
  ⟨s.registrations, s.registerCalls ++ s.registrations⟩

/-- An operation on a subscription manager. -/
inductive SubOp (α : Type) : Type where
  | add : α → SubOp α
  | reRegister : SubOp α

/-- Run a sequence of manager operations, in order. -/
def runSubOps (s : SubState α) : List (SubOp α) → SubState α
  | [] => s
  | .add o :: rest => runSubOps (addRegistration s o) rest
  | .reRegister :: rest => runSubOps (reRegister s) rest

/-- The arguments of the `add` operations of a run, in call order. -/
def addedOptions : List (SubOp α) → List α
  | [] => []
  | .add o :: rest => o :: addedOptions rest
  | .reRegister :: rest => addedOptions rest

/-- `addRegistration` with a fallible `register`: the push onto the ledger
happens first (and `register` is invoked, recorded in `registerCalls`), so
when `register` throws the exception propagates while the options are
already recorded. -/
def addRegistrationExc (reg : α → Except ε Unit) (s : SubState α)
    (options : α) : SubState α × Except ε Unit :=
  (⟨s.registrations ++ [options], s.registerCalls ++ [options]⟩, reg options)

/-! Helper lemmas shared by the claim theorems. -/

theorem find?_append_of_none {β : Type} (l1 l2 : List β) (p : β → Bool)
    (h : l1.find? p = none) : (l1 ++ l2).find? p = l2.find? p := by
  induction l1 with
  | nil => simp
  | cons x xs ih =>
    cases hx : p x with
    | true => simp [List.find?, hx] at h
    | false =>
      simp only [List.find?, hx] at h
      simpa [List.find?, hx] using ih h

theorem runSubOps_registrations {α : Type} (s : SubState α)
    (ops : List (SubOp α)) :
    (runSubOps s ops).registrations = s.registrations ++ addedOptions ops := by
  induction ops generalizing s with
  | nil => simp [runSubOps, addedOptions]
  | cons op rest ih =>
    cases op with
    | add o => simp [runSubOps, addedOptions, addRegistration, ih]
    | reRegister => simp [runSubOps, addedOptions, reRegister, ih]

/-- Claim C9: `reRegister()` replays every ledger entry through the
manager's `register`, once per entry in original insertion order, and
leaves the ledger unchanged; after any sequence of operations the ledger is
exactly the sequence of `addRegistration` arguments in call order. -/
theorem reRegister_replays_ledger_in_order {α : Type} (s : SubState α)
    (ops : List (SubOp α)) :
    (reRegister s).registrations = s.registrations ∧
    (reRegister s).registerCalls = s.registerCalls ++ s.registrations ∧
    (runSubOps (initialSubState : SubState α) ops).registrations
      = addedOptions ops := by
  refine ⟨rfl, rfl, ?_⟩
  simpa [initialSubState] using runSubOps_registrations initialSubState ops

/-- Claim C8, counterexample: in the scenario
`addRegistration A; addRegistration B; reRegister()` the external subscribe
primitive is not invoked three times. -/
theorem scenario4_not_three_calls :
    ((runSubOps (initialSubState : SubState Nat)
        [SubOp.add 0, SubOp.add 1, SubOp.reRegister]).registerCalls).length
      ≠ 3 := by
  decide

/-- Claim C8 (amended): `addRegistration(optsA)`, `addRegistration(optsB)`,
`reRegister()` invoke the external subscribe primitive exactly four times
total, in the order A, B, then A and B again on `reRegister`. -/
theorem scenario4_four_calls_in_order {α : Type} (a b : α) :
    (runSubOps (initialSubState : SubState α)
        [SubOp.add a, SubOp.add b, SubOp.reRegister]).registerCalls
      = [a, b, a, b] := by
  simp [runSubOps, initialSubState, addRegistration, reRegister]

/-- Claim C10: `addRegistration` appends the options to the ledger before
invoking the manager's `register`, so when `register` throws, the options
are already recorded and a subsequent `reRegister()` replays them. -/
theorem addRegistration_records_before_register {α ε : Type}
    (reg : α → Except ε Unit) (s : SubState α) (o : α) (e : ε)
    (h : reg o = Except.error e) :
    (addRegistrationExc reg s o).1.registrations = s.registrations ++ [o] ∧
    (addRegistrationExc reg s o).2 = Except.error e ∧
    (reRegister (addRegistrationExc reg s o).1).registerCalls
      = (s.registerCalls ++ [o]) ++ (s.registrations ++ [o]) := by
  exact ⟨rfl, by simp [addRegistrationExc, h], rfl⟩

/-- Witness for C10 at a register that always throws. -/
theorem addRegistration_records_before_register_witness :
    (fun _ : Nat => (Except.error 0 : Except Nat Unit)) 5 = Except.error 0 ∧
    ((addRegistrationExc (fun _ : Nat => (Except.error 0 : Except Nat Unit))
        initialSubState 5).1.registrations
      = (initialSubState : SubState Nat).registrations ++ [5] ∧
    (addRegistrationExc (fun _ : Nat => (Except.error 0 : Except Nat Unit))
        initialSubState 5).2 = Except.error 0 ∧
    (reRegister (addRegistrationExc
        (fun _ : Nat => (Except.error 0 : Except Nat Unit))
        initialSubState 5).1).registerCalls
      = ((initialSubState : SubState Nat).registerCalls ++ [5])
          ++ ((initialSubState : SubState Nat).registrations ++ [5])) :=
  ⟨rfl, addRegistration_records_before_register _ initialSubState 5 0 rfl⟩

theorem find?_filter_of_imp {β : Type} (l : List β) (p q : β → Bool)
    (h : ∀ x, p x = true → q x = true) :
    (l.filter q).find? p = l.find? p := by
  induction l with
  | nil => rfl
  | cons x xs ih =>
    cases hq : q x with
    | true =>
      cases hp : p x with
      | true => simp [List.filter, List.find?, hq, hp]
      | false => simp [List.filter, List.find?, hq, hp, ih]
    | false =>
      have hp : p x = false := by
        cases hpx : p x with
        | true => exact absurd (h x hpx) (by simp [hq])
        | false => rfl
      simp [List.filter, List.find?, hq, hp, ih]

theorem find?_filter_of_excl {β : Type} (l : List β) (p q : β → Bool)
    (h : ∀ x, p x = true → q x = false) :
    (l.filter q).find? p = none := by
  induction l with
  | nil => rfl
  | cons x xs ih =>
    cases hq : q x with
    | true =>
      have hp : p x = false := by
        cases hpx : p x with
        | true => exact absurd (h x hpx) (by simp [hq])
        | false => rfl
      simp [List.filter, List.find?, hq, hp, ih]
    | false => simp [List.filter, hq, ih]

/-- Claim C3: `{all: [a, b]}` evaluates to the conjunction and
`{any: [a, b]}` to the disjunction of the entries' evaluations, for every
grant map, every `sequential` flag, and entries that may themselves be
nested matchers. -/
theorem matcher_all_any_compositional (g : GrantMap) (a b : MatcherEntry)
    (seq : Bool) :
    evalMatcher g (PermissionMatcher.all [a, b] seq)
      = (evalEntry g a && evalEntry g b) ∧
    evalMatcher g (PermissionMatcher.any [a, b] seq)
      = (evalEntry g a || evalEntry g b) := by
  cases seq <;>
    constructor <;>
      simp only [evalMatcher, evalAll, evalAny] <;>
        cases evalEntry g a <;> cases evalEntry g b <;> simp

/-- Claim C5: a sequential `{all: [a, b, c]}` visits its entries left to
right and stops at the first `false` — in particular `c` is never evaluated
when `b` evaluates to `false` — while the non-sequential form evaluates all
three entries regardless of their results. -/
theorem sequential_all_short_circuits (g : GrantMap) (a b c : MatcherEntry) :
    allTried g true [a, b, c]
      = (if evalEntry g a then
          (if evalEntry g b then [a, b, c] else [a, b])
        else [a]) ∧
    allTried g false [a, b, c] = [a, b, c] := by
  constructor
  · cases ha : evalEntry g a <;> cases hb : evalEntry g b <;>
      simp [allTried, ha, hb]
  · simp [allTried]

/-- Claim C6: `merge(G1, G2)` behaves as a new map in which every key of
`G2` has `G2`'s value verbatim and every key of `G1` not present in `G2`
keeps `G1`'s value; being a pure construction, it leaves `G1` and `G2`
untouched. -/
theorem mergeGrants_lookup (G1 G2 : GrantMap) (k : String) :
    lookupGrant (mergeGrants G1 G2) k
      = (if hasKey G2 k then lookupGrant G2 k else lookupGrant G1 k) := by
  unfold lookupGrant mergeGrants
  cases h2 : hasKey G2 k with
  | true =>
    have hfilter : (G1.filter (fun p => !(hasKey G2 p.1))).find?
        (fun p => p.1 == k) = none := by
      refine find?_filter_of_excl _ _ _ (fun x hx => ?_)
      have hk : x.1 = k := by simpa using hx
      simp [hk, h2]
    rw [find?_append_of_none _ _ _ hfilter]
    simp [h2]
  | false =>
    have hG2 : G2.find? (fun p => p.1 == k) = none := by
      unfold hasKey at h2
      exact Option.not_isSome_iff_eq_none.mp (by simp [h2])
    have hfilter : (G1.filter (fun p => !(hasKey G2 p.1))).find?
        (fun p => p.1 == k) = G1.find? (fun p => p.1 == k) := by
      refine find?_filter_of_imp _ _ _ (fun x hx => ?_)
      have hk : x.1 = k := by simpa using hx
      simp [hk, h2]
    cases hG1 : G1.find? (fun p => p.1 == k) with
    | some e =>
      rw [List.find?_append, hfilter, hG1]
      simp [h2]
    | none =>
      rw [List.find?_append, hfilter, hG1]
      simp [h2, hG2]

/-- Claim C4: evaluating a permission name against the empty grant map
denies (fail-closed, no exception path exists), and a denied field always
yields the unique `AuthorizationError` result, regardless of which check
inside the matcher failed. -/
theorem fail_closed_uniform_denial {P A C R : Type} (g : GrantMap)
    (check : PermissionCheckOpt P A C) (res : P → A → C → R) (parent : P)
    (args : A) (ctx : C) :
    (∀ n : String, evalEntry ([] : GrantMap) (MatcherEntry.name n) = false) ∧
    (evalPermissionCheck g check parent args ctx = false →
      resolveField g ⟨check, res⟩ parent args ctx
        = (FieldResult.authError, 0)) := by
  constructor
  · intro n; rfl
  · intro h; simp [resolveField, h]

/-- Witness for C4: an unknown permission name on the empty grant map
denies, and the denied field reports the `AuthorizationError` result. -/
theorem fail_closed_uniform_denial_witness :
    evalPermissionCheck ([] : GrantMap)
        (PermissionCheckOpt.name "admin") () () () = false ∧
    resolveField ([] : GrantMap)
        (⟨PermissionCheckOpt.name "admin", fun _ _ _ => "x"⟩ :
          FieldDef Unit Unit Unit String) () () ()
      = (FieldResult.authError, 0) :=
  ⟨rfl,
    (fail_closed_uniform_denial ([] : GrantMap)
      (PermissionCheckOpt.name "admin") (fun _ _ _ => "x") () () ()).2 rfl⟩

/-- Claim C1: when a field's permission check denies, the user resolver is
never invoked (its invocation count stays 0), the field's result is the
field-local authorization failure at that field's position, and sibling
fields of the same parent resolve exactly as they would on their own. -/
theorem denied_field_skips_resolver {P A C R : Type} (g : GrantMap)
    (f : FieldDef P A C R) (fs1 fs2 : List (FieldDef P A C R)) (parent : P)
    (args : A) (ctx : C)
    (h : evalPermissionCheck g f.permissionCheck parent args ctx = false) :
    (resolveField g f parent args ctx).2 = 0 ∧
    (resolveField g f parent args ctx).1 = FieldResult.authError ∧
    resolveFields g (fs1 ++ f :: fs2) parent args ctx
      = resolveFields g fs1 parent args ctx
          ++ (FieldResult.authError, 0)
            :: resolveFields g fs2 parent args ctx := by
  refine ⟨?_, ?_, ?_⟩ <;> simp [resolveField, resolveFields, h]

/-- The permission check of end-to-end scenario 1: the first character of
the `name` argument must equal its uppercased form. -/
def firstCharCapitalized (s : String) : Bool :=
  match s.data with
  | [] => false
  | ch :: _ => ch == ch.toUpper

/-- The `hello` field of end-to-end scenario 1: its check is a function of
(parent, args, context) and its resolver returns a greeting. -/
def helloField : FieldDef Unit String Unit String :=
  ⟨PermissionCheckOpt.fn (fun _ name _ => CheckResult.bool
      (firstCharCapitalized name)),
    fun _ name _ => "hello, " ++ name⟩

/-- Witness for C1, end-to-end scenario 1 with `name := "bob"`: the check
denies, the resolver runs zero times, the result is the authorization
failure at the field's position, and a sibling `hello` field still
resolves. -/
theorem denied_field_skips_resolver_witness :
    evalPermissionCheck ([] : GrantMap) helloField.permissionCheck
        () "bob" () = false ∧
    ((resolveField ([] : GrantMap) helloField () "bob" ()).2 = 0 ∧
    (resolveField ([] : GrantMap) helloField () "bob" ()).1
      = FieldResult.authError ∧
    resolveFields ([] : GrantMap) ([] ++ helloField :: []) () "bob" ()
      = resolveFields ([] : GrantMap) [] () "bob" ()
          ++ (FieldResult.authError, 0)
            :: resolveFields ([] : GrantMap) [] () "bob" ()) :=
  ⟨by decide,
    denied_field_skips_resolver ([] : GrantMap) helloField [] [] () "bob" ()
      (by decide)⟩

theorem getOrCompute_hit {V : Type} (t : AuthCheckCache V) (c o : Nat)
    (f : Unit → V) (e : (Nat × Nat) × V)
    (h : t.entries.find? (fun x => x.1 == (c, o)) = some e) :
    getOrCompute t c o f = (e.2, t) := by
  simp [getOrCompute, h]

theorem getOrCompute_miss {V : Type} (t : AuthCheckCache V) (c o : Nat)
    (f : Unit → V)
    (h : t.entries.find? (fun x => x.1 == (c, o)) = none) :
    getOrCompute t c o f
      = (f (), ⟨t.entries ++ [((c, o), f ())], t.execLog ++ [(c, o)]⟩) := by
  simp [getOrCompute, h]

/-- Claim C2: the auth check cache is keyed by the pair (check-function
identity, parent-object identity). A second lookup with the same check and
the same object returns the stored (possibly still in-flight) result of the
first lookup without executing the check again and without touching the
cache; a lookup with the same check but a different, uncached object
executes the underlying check again. -/
theorem authCheckCache_keyed_by_identity {V : Type} (s : AuthCheckCache V)
    (c o oAlt : Nat) (f fAlt fAlt2 : Unit → V)
    (h1 : s.entries.find? (fun e => e.1 == (c, o)) = none)
    (h2 : (getOrCompute s c o f).2.entries.find?
        (fun e => e.1 == (c, oAlt)) = none) :
    (getOrCompute (getOrCompute s c o f).2 c o fAlt).1
      = (getOrCompute s c o f).1 ∧
    (getOrCompute (getOrCompute s c o f).2 c o fAlt).2
      = (getOrCompute s c o f).2 ∧
    execCount (getOrCompute (getOrCompute s c o f).2 c o fAlt).2 (c, o)
      = execCount s (c, o) + 1 ∧
    execCount (getOrCompute (getOrCompute s c o f).2 c oAlt fAlt2).2 (c, oAlt)
      = execCount (getOrCompute s c o f).2 (c, oAlt) + 1 := by
  have hs1 : (getOrCompute s c o f).2
      = ⟨s.entries ++ [((c, o), f ())], s.execLog ++ [(c, o)]⟩ := by
    simp [getOrCompute, h1]
  have hs1v : (getOrCompute s c o f).1 = f () := by
    simp [getOrCompute, h1]
  have hfind1 : (getOrCompute s c o f).2.entries.find?
      (fun e => e.1 == (c, o)) = some ((c, o), f ()) := by
    rw [hs1]
    show (s.entries ++ [((c, o), f ())]).find? (fun e => e.1 == (c, o))
      = some ((c, o), f ())
    rw [find?_append_of_none _ _ _ h1]
    simp [List.find?]
  have hhit : getOrCompute (getOrCompute s c o f).2 c o fAlt
      = (f (), (getOrCompute s c o f).2) :=
    getOrCompute_hit _ _ _ _ _ hfind1
  have hmiss : getOrCompute (getOrCompute s c o f).2 c oAlt fAlt2
      = (fAlt2 (), ⟨(getOrCompute s c o f).2.entries ++ [((c, oAlt), fAlt2 ())],
          (getOrCompute s c o f).2.execLog ++ [(c, oAlt)]⟩) :=
    getOrCompute_miss _ _ _ _ h2
  refine ⟨by rw [hhit, hs1v], by rw [hhit], ?_, ?_⟩
  · rw [hhit, hs1]
    show (s.execLog ++ [(c, o)]).countP (fun x => x == (c, o))
      = execCount s (c, o) + 1
    rw [List.countP_append]
    simp [execCount, List.countP, List.countP.go]
  · rw [hmiss]
    show ((getOrCompute s c o f).2.execLog ++ [(c, oAlt)]).countP
        (fun x => x == (c, oAlt))
      = execCount (getOrCompute s c o f).2 (c, oAlt) + 1
    rw [List.countP_append]
    simp [execCount, List.countP, List.countP.go]

/-- Witness for C2: on a fresh cache, a repeated lookup of check 0 on
object 1 leaves the execution count at one, while a lookup of check 0 on a
different object 2 executes the check again. -/
theorem authCheckCache_keyed_by_identity_witness :
    (⟨[], []⟩ : AuthCheckCache Bool).entries.find?
        (fun e => e.1 == (0, 1)) = none ∧
    execCount (getOrCompute
        (getOrCompute (⟨[], []⟩ : AuthCheckCache Bool) 0 1 (fun _ => true)).2
        0 1 (fun _ => false)).2 (0, 1)
      = execCount (⟨[], []⟩ : AuthCheckCache Bool) (0, 1) + 1 ∧
    execCount (getOrCompute
        (getOrCompute (⟨[], []⟩ : AuthCheckCache Bool) 0 1 (fun _ => true)).2
        0 2 (fun _ => true)).2 (0, 2)
      = execCount
          (getOrCompute (⟨[], []⟩ : AuthCheckCache Bool) 0 1
            (fun _ => true)).2 (0, 2) + 1 :=
  ⟨rfl,
    (authCheckCache_keyed_by_identity (⟨[], []⟩ : AuthCheckCache Bool) 0 1 2
        (fun _ => true) (fun _ => false) (fun _ => true) rfl
        (by decide)).2.2.1,
    (authCheckCache_keyed_by_identity (⟨[], []⟩ : AuthCheckCache Bool) 0 1 2
        (fun _ => true) (fun _ => false) (fun _ => true) rfl
        (by decide)).2.2.2⟩

theorem runPreResolveCheck_hit {V : Type} (d : AuthRequestData V)
    (c p : Nat) (f : Unit → V) (e : Nat × V)
    (h : d.preResolveAuthCheckCache.find? (fun x => x.1 == c) = some e) :
    runPreResolveCheck d c p f = (e.2, d) := by
  simp [runPreResolveCheck, h]

theorem runPreResolveCheck_miss {V : Type} (d : AuthRequestData V)
    (c p : Nat) (f : Unit → V)
    (h : d.preResolveAuthCheckCache.find? (fun x => x.1 == c) = none) :
    runPreResolveCheck d c p f
      = (f (), ⟨d.preResolveAuthCheckCache ++ [(c, f ())],
          d.execLog ++ [c]⟩) := by
  simp [runPreResolveCheck, h]

theorem preResolve_count_inv {V : Type} (ops : List (Nat × Nat × (Unit → V)))
    (d : AuthRequestData V)
    (h : ∀ k, d.execLog.countP (fun x => x == k)
        = if (d.preResolveAuthCheckCache.find? (fun x => x.1 == k)).isSome
          then 1 else 0) :
    ∀ k, (runPreResolveChecks d ops).execLog.countP (fun x => x == k)
        = if ((runPreResolveChecks d ops).preResolveAuthCheckCache.find?
            (fun x => x.1 == k)).isSome then 1 else 0 := by
  induction ops generalizing d with
  | nil => exact h
  | cons op rest ih =>
    obtain ⟨c, p, f⟩ := op
    refine ih _ (fun k => ?_)
    cases hf : d.preResolveAuthCheckCache.find? (fun x => x.1 == c) with
    | some e => rw [runPreResolveCheck_hit d c p f e hf]; exact h k
    | none =>
      rw [runPreResolveCheck_miss d c p f hf]
      show (d.execLog ++ [c]).countP (fun x => x == k)
        = if ((d.preResolveAuthCheckCache ++ [(c, f ())]).find?
            (fun x => x.1 == k)).isSome then 1 else 0
      rw [List.countP_append, List.find?_append]
      by_cases hk : c = k
      · subst hk
        have hc0 := h c
        rw [hf] at hc0
        simp only [Option.isSome_none, Bool.false_eq_true, if_false] at hc0
        rw [hc0, hf]
        simp [List.countP, List.countP.go]
      · have hck : (c == k) = false := by
          simp [hk]
        have hkc : ((c, f ()).1 == k) = false := hck
        rw [h k]
        simp [List.countP, List.countP.go, List.find?, hck, hkc, Option.or]
        cases hdk : d.preResolveAuthCheckCache.find? (fun x => x.1 == k) <;>
          simp [hdk]

/-- Claim C7: the pre-resolve check cache of `AuthRequestData` is keyed by
the check function alone, so over any sequence of invocations within one
request — whatever fields and however many distinct parent objects are
involved — each check function executes at most once, and any invocation
that finds a cache entry returns that stored first result, leaving the
request data unchanged. -/
theorem preResolveCheck_at_most_once {V : Type}
    (ops : List (Nat × Nat × (Unit → V))) (c : Nat) (d : AuthRequestData V)
    (e : Nat × V) (p : Nat) (f : Unit → V)
    (hhit : d.preResolveAuthCheckCache.find? (fun x => x.1 == c) = some e) :
    (runPreResolveChecks (freshRequestData : AuthRequestData V)
        ops).execLog.countP (fun x => x == c) ≤ 1 ∧
    runPreResolveCheck d c p f = (e.2, d) := by
  constructor
  · rw [preResolve_count_inv ops freshRequestData
      (fun k => by simp [freshRequestData]) c]
    split <;> simp
  · exact runPreResolveCheck_hit d c p f e hhit

/-- Witness for C7: check 7 invoked for two distinct parent objects from a
fresh request executes at most once, and a request state already caching
check 7 returns the cached result unchanged. -/
theorem preResolveCheck_at_most_once_witness :
    (runPreResolveChecks (freshRequestData : AuthRequestData Bool)
        [(7, 0, fun _ => true), (7, 1, fun _ => true)]).execLog.countP
        (fun x => x == 7) ≤ 1 ∧
    runPreResolveCheck (⟨[(7, true)], [7]⟩ : AuthRequestData Bool) 7 5
      (fun _ => false)
      = (true, (⟨[(7, true)], [7]⟩ : AuthRequestData Bool)) :=
  preResolveCheck_at_most_once
    [(7, 0, fun _ => true), (7, 1, fun _ => true)] 7
    (⟨[(7, true)], [7]⟩ : AuthRequestData Bool) (7, true) 5
    (fun _ => false) rfl

end GiraphQL
